import Mathlib

/-!
A shallow embedding of `altera_fmt_lib.py`: the `AlteraTag` 12-byte tag
classifier and the `JICReader` container parser, together with proofs about
them.  A byte source is modelled as a `List Nat` of byte values; file reads
are modelled by `readAt` (drop/take), matching Python's `read`/`seek`/`tell`
semantics on a seekable binary stream.
-/

namespace AlteraFmtLib

/-- Little-endian value of a byte list (least significant byte first), the
interpretation performed by `struct.unpack` for the `<H` and `<I` fields. -/
def leNat : List Nat → Nat
  | [] => 0
  | b :: bs => b + 256 * leNat bs

/-- Little-endian 4-byte encoding of a natural number, as produced by
`struct.pack` for an `<I` field. -/
def u32le (n : Nat) : List Nat :=
  [n % 256, n / 256 % 256, n / 65536 % 256, n / 16777216 % 256]

/-- `struct.pack` of a `<4s` field: the byte string NUL-padded to 4 bytes. -/
def pack4s (s : List Nat) : List Nat :=
  (s ++ List.replicate 4 0).take 4

/-- `AlteraTag.S.pack(sig, a, b)` for `S = Struct("<4sII")`. -/
def S_pack (sig : List Nat) (a b : Nat) : List Nat :=
  pack4s sig ++ u32le a ++ u32le b

/-- The static dictionary built by `AlteraTag._build_classificator`:
packed 12-byte patterns mapped to class names. -/
def classificator : List (List Nat × String) :=
  [ (S_pack [74, 73, 67] 0 0x08, "JIC_HEADER"),
    (S_pack [83, 79, 70] 0 0x0B, "SOF_HEADER"),
    (S_pack [80, 79, 70] 0x010000 0x07, "POF_HEADER"),
    (S_pack [] 0 0x010800, "RAW_FIRMWARE") ]

/-- `AlteraTag.classify`: dictionary lookup of the tag's 12-byte buffer,
returning `none` where Python catches `KeyError`. -/
def classify (buf : List Nat) : Option String :=
  List.lookup buf classificator

/-- `AlteraTag.check_ext_unstrict`: `self.buf.startswith(ext)`. -/
def check_ext_unstrict (buf ext : List Nat) : Bool :=
  ext.isPrefixOf buf

/-- The errors raised by the library: the `AlteraTagException` for a buffer
that is not 12 bytes, and the `JICReaderException` variants, each tagged with
the data its message reports.  `fuelExhausted` is an artefact of the fuelled
loop below and never occurs at the fuel the entry points supply. -/
inductive JICError where
  | malformedTag
  | badRootTag
  | truncatedHeader
  | trailingOrMissingBytes (delta : Int)
  | shortRead
  | unexpectedFirmwarePageCount (count : Nat)
  | tagMismatch
  | indexOutOfRange
  | fuelExhausted
deriving Repr, DecidableEq

/-- `JICReader.JICPage = namedtuple("JICPage", ["type", "pos", "size"])`. -/
structure JICPage where
  type : Nat
  pos : Nat
  size : Nat
deriving Repr, DecidableEq, Inhabited

/-- `f.seek(pos); f.read(n)` on a byte source: up to `n` bytes starting at
`pos`, fewer (possibly none) when the source ends first. -/
def readAt (src : List Nat) (pos n : Nat) : List Nat :=
  (src.drop pos).take n

/-- The loop of `JICReader._parse.read_rec_headers`, with explicit cursor and
fuel.  Each iteration reads a 6-byte record header `<HI>` at the cursor; an
empty read ends the loop (returning the pages and the final cursor), a short
read raises the stray-bytes error, and otherwise the page is recorded with
`pos` just after its header and the cursor seeks past `size` payload bytes. -/
def readRecHeadersFuel (src : List Nat) : Nat → Nat → Except JICError (List JICPage × Nat)
  | 0, _ => .error .fuelExhausted
  | fuel + 1, pos =>
    let data := readAt src pos 6
    if data.length = 0 then
      .ok ([], pos)
    else if data.length < 6 then
      .error .truncatedHeader
    else
      match readRecHeadersFuel src fuel ((pos + 6) + leNat (data.drop 2)) with
      | .error e => .error e
      | .ok (pages, endPos) =>
        .ok (⟨leNat (data.take 2), pos + 6, leNat (data.drop 2)⟩ :: pages, endPos)

/-- The record-header scan started at a cursor position.  One unit of fuel per
remaining byte plus one is always enough: each iteration either stops or moves
the cursor forward by at least 6 bytes while the cursor is inside the source. -/
def readRecHeaders (src : List Nat) (pos : Nat) : Except JICError (List JICPage × Nat) :=
  readRecHeadersFuel src (src.length + 1) pos

/-- The root-tag acceptance test of `JICReader._parse`: `check_rt`, strict or
simplified according to the mode. -/
def checkRt (strict : Bool) (root : List Nat) : Bool :=
  if strict then decide (classify root = some "JIC_HEADER")
  else check_ext_unstrict root [74, 73, 67]

/-- `JICReader._parse`: read the 12-byte root tag (the `AlteraTag` constructor
raises unless exactly 12 bytes arrive), validate it per mode, scan the record
headers from offset 12, and require the final cursor to land exactly at the
end of the source. -/
def parse (src : List Nat) (strict : Bool) : Except JICError (List JICPage) :=
  let root := readAt src 0 12
  if root.length = 12 then
    if checkRt strict root then
      match readRecHeaders src 12 with
      | .error e => .error e
      | .ok (pages, endPos) =>
        if endPos = src.length then
          .ok pages
        else
          .error (.trailingOrMissingBytes ((endPos : Int) - (src.length : Int)))
    else
      .error .badRootTag
  else
    .error .malformedTag

/-- One step of `build_typedict`: Python's
`if h.type not in D: D[h.type] = [i] else: D[h.type].append(i)` on an
insertion-ordered dictionary, modelled as an association list. -/
def addToTypedict (D : List (Nat × List Nat)) (t i : Nat) : List (Nat × List Nat) :=
  match D with
  | [] => [(t, [i])]
  | (t', ii) :: rest =>
    if t' = t then (t', ii ++ [i]) :: rest
    else (t', ii) :: addToTypedict rest t i

/-- The `for i, h in enumerate(self.headers)` loop of `build_typedict`,
carrying the running index. -/
def buildTypedictFrom (i : Nat) (hs : List JICPage) (D : List (Nat × List Nat)) :
    List (Nat × List Nat) :=
  match hs with
  | [] => D
  | h :: rest => buildTypedictFrom (i + 1) rest (addToTypedict D h.type i)

/-- `JICReader._parse.build_typedict`: the type → header-index mapping. -/
def buildTypedict (headers : List JICPage) : List (Nat × List Nat) :=
  buildTypedictFrom 0 headers []

/-- Dictionary lookup `TD[t]`, `none` when `t not in TD`. -/
def typedictLookup (D : List (Nat × List Nat)) (t : Nat) : Option (List Nat) :=
  match D with
  | [] => none
  | (t', ii) :: rest => if t' = t then some ii else typedictLookup rest t

/-- The state a `JICReader` instance holds after `__init__` succeeds. -/
structure JICReader where
  src : List Nat
  strict : Bool
  headers : List JICPage
  typedict : List (Nat × List Nat)
deriving Repr, DecidableEq

/-- `JICReader.__init__`: parse the source and record headers and typedict. -/
def openJIC (src : List Nat) (strict : Bool) : Except JICError JICReader :=
  match parse src strict with
  | .error e => .error e
  | .ok headers => .ok ⟨src, strict, headers, buildTypedict headers⟩

/-- `JICReader.read_page`: seek to the page position, read `size` bytes, and
fail when fewer arrive. -/
def read_page (r : JICReader) (hdr : JICPage) : Except JICError (List Nat) :=
  let data := readAt r.src hdr.pos hdr.size
  if data.length < hdr.size then .error .shortRead else .ok data

/-- Python list subscripting `l[i]` with an integer index: nonnegative indices
below the length and negative indices from `-len` upward succeed (a negative
index counts from the end); anything else raises `IndexError`. -/
def pyGet {α : Type} (l : List α) (i : Int) : Except JICError α :=
  if h : 0 ≤ i ∧ i < (l.length : Int) then
    .ok (l.get ⟨i.toNat, by omega⟩)
  else if h2 : i < 0 ∧ 0 ≤ i + (l.length : Int) then
    .ok (l.get ⟨(i + (l.length : Int)).toNat, by omega⟩)
  else
    .error .indexOutOfRange

/-- `JICReader.read_page_by_id`: `self.read_page(self.headers[i])`. -/
def read_page_by_id (r : JICReader) (i : Int) : Except JICError (List Nat) :=
  match pyGet r.headers i with
  | .error e => .error e
  | .ok h => read_page r h

/-- The list comprehension `[f(i) for i in ii]` under exception semantics:
left-to-right evaluation, the first raised error propagating. -/
def mapExcept {α β : Type} (f : α → Except JICError β) : List α → Except JICError (List β)
  | [] => .ok []
  | a :: rest =>
    match f a with
    | .error e => .error e
    | .ok x =>
      match mapExcept f rest with
      | .error e => .error e
      | .ok xs => .ok (x :: xs)

/-- `JICReader.read_pages_by_type`: the empty list when the type is absent
from the typedict, otherwise every indexed page of that type in bucket
order. -/
def read_pages_by_type (r : JICReader) (t : Nat) : Except JICError (List (List Nat)) :=
  match typedictLookup r.typedict t with
  | none => .ok []
  | some ii => mapExcept (fun (i : Nat) => read_page_by_id r (i : Int)) ii

/-- `JICReader.extract_firmware`: find the type-28 pages, apply the mode's
count policy, take the first page, build the 12-byte inner tag (the
`AlteraTag` constructor raises on a shorter buffer), strictly require it to
classify as raw firmware, and return the payload after the tag. -/
def extract_firmware (r : JICReader) : Except JICError (List Nat) :=
  match read_pages_by_type r 28 with
  | .error e => .error e
  | .ok pp =>
    if if r.strict then pp.length = 1 else pp.length ≠ 0 then
      let data := pp.getD 0 []
      let tagbuf := data.take 12
      if tagbuf.length = 12 then
        if r.strict ∧ classify tagbuf ≠ some "RAW_FIRMWARE" then
          .error .tagMismatch
        else
          .ok (data.drop 12)
      else
        .error .malformedTag
    else
      .error (.unexpectedFirmwarePageCount pp.length)

/-- Bytes a page accounts for in the stream: its 6-byte record header plus its
declared payload size, summed over a page list. -/
def sumLen : List JICPage → Nat
  | [] => 0
  | p :: rest => 6 + p.size + sumLen rest

/-- The layout the scan establishes when started at cursor `s`: each page's
`pos` sits 6 bytes after the cursor reaches its record header, and the cursor
then moves past the declared payload. -/
def pagesLayout : Nat → List JICPage → Prop
  | _, [] => True
  | s, p :: rest => p.pos = s + 6 ∧ pagesLayout (s + 6 + p.size) rest

/-- The indices (counted from `i`) of the pages of type `t` in a page list:
the contents of the typedict bucket for `t`. -/
def typeIdxs (i : Nat) (hs : List JICPage) (t : Nat) : List Nat :=
  match hs with
  | [] => []
  | h :: rest => if h.type = t then i :: typeIdxs (i + 1) rest t else typeIdxs (i + 1) rest t

/-- The canonical 12-byte JIC root tag. -/
def jicRootTag : List Nat := S_pack [74, 73, 67] 0 0x08

/-- The canonical 12-byte raw-firmware tag. -/
def rawFirmwareTag : List Nat := S_pack [] 0 0x010800

/-- A minimal well-formed container: root tag, then one type-28 page whose
payload is the raw-firmware tag followed by the two bytes `171, 205`. -/
def sample1 : List Nat := jicRootTag ++ [28, 0] ++ u32le 14 ++ rawFirmwareTag ++ [171, 205]

/-- The reader state `openJIC sample1 true` produces. -/
def sampleReader : JICReader := ⟨sample1, true, [⟨28, 18, 14⟩], [(28, [0])]⟩

/-- A container with two type-28 pages, each a raw-firmware tag plus one byte. -/
def twoFwSrc : List Nat :=
  jicRootTag ++ [28, 0] ++ u32le 13 ++ rawFirmwareTag ++ [1]
    ++ [28, 0] ++ u32le 13 ++ rawFirmwareTag ++ [2]

/-- The reader state `openJIC twoFwSrc true` produces. -/
def twoFwReader : JICReader :=
  ⟨twoFwSrc, true, [⟨28, 18, 13⟩, ⟨28, 37, 13⟩], [(28, [0, 1])]⟩

/-- A container whose single type-28 page has a 5-byte payload, too short to
hold the 12-byte inner tag. -/
def shortFwSrc : List Nat := jicRootTag ++ [28, 0] ++ u32le 5 ++ [9, 9, 9, 9, 9]

/-- The reader state `openJIC shortFwSrc false` produces. -/
def shortFwReader : JICReader := ⟨shortFwSrc, false, [⟨28, 18, 5⟩], [(28, [0])]⟩

/-- A 12-byte root tag whose signature is "JIC" but whose `field_b` is 9
instead of the expected 8. -/
def jicFieldB9 : List Nat := [74, 73, 67, 0, 0, 0, 0, 0, 9, 0, 0, 0]

theorem length_readAt (src : List Nat) (pos n : Nat) :
    (readAt src pos n).length = min n (src.length - pos) := by
  simp [readAt]

theorem readAt_eq_nil_of_le (src : List Nat) (pos n : Nat) (h : src.length ≤ pos) :
    readAt src pos n = [] := by
  simp [readAt, List.drop_eq_nil_of_le h]

theorem leNat_u32le (n : Nat) (h : n < 4294967296) : leNat (u32le n) = n := by
  simp only [u32le, leNat]
  omega

theorem rrh_eof (src : List Nat) (fuel pos : Nat) (hf : 0 < fuel)
    (h : (readAt src pos 6).length = 0) :
    readRecHeadersFuel src fuel pos = .ok ([], pos) := by
  obtain ⟨f, rfl⟩ : ∃ f, fuel = f + 1 := ⟨fuel - 1, by omega⟩
  simp [readRecHeadersFuel, h]

theorem rrh_stray (src : List Nat) (fuel pos : Nat) (hf : 0 < fuel)
    (h1 : (readAt src pos 6).length ≠ 0) (h2 : (readAt src pos 6).length < 6) :
    readRecHeadersFuel src fuel pos = .error .truncatedHeader := by
  obtain ⟨f, rfl⟩ : ∃ f, fuel = f + 1 := ⟨fuel - 1, by omega⟩
  simp [readRecHeadersFuel, h1, h2]

theorem rrh_cont (src : List Nat) (f pos : Nat)
    (h : (readAt src pos 6).length = 6) :
    readRecHeadersFuel src (f + 1) pos =
      match readRecHeadersFuel src f ((pos + 6) + leNat ((readAt src pos 6).drop 2)) with
      | .error e => .error e
      | .ok (pages, endPos) =>
        .ok (⟨leNat ((readAt src pos 6).take 2), pos + 6,
              leNat ((readAt src pos 6).drop 2)⟩ :: pages, endPos) := by
  simp [readRecHeadersFuel, h]

theorem rrh_ok_layout (src : List Nat) :
    ∀ (fuel pos : Nat) (pages : List JICPage) (endPos : Nat),
      readRecHeadersFuel src fuel pos = .ok (pages, endPos) →
      pagesLayout pos pages ∧ endPos = pos + sumLen pages := by
  intro fuel
  induction fuel with
  | zero =>
    intro pos pages endPos h
    simp [readRecHeadersFuel] at h
  | succ f ih =>
    intro pos pages endPos h
    simp only [readRecHeadersFuel] at h
    split at h
    · simp only [Except.ok.injEq, Prod.mk.injEq] at h
      obtain ⟨h1, h2⟩ := h
      subst h1
      subst h2
      simp [pagesLayout, sumLen]
    · split at h
      · simp at h
      · split at h
        · simp at h
        · rename_i pages' endPos' heq
          simp only [Except.ok.injEq, Prod.mk.injEq] at h
          obtain ⟨h1, h2⟩ := h
          obtain ⟨ihl, ihe⟩ := ih _ _ _ heq
          subst h1
          subst h2
          refine ⟨⟨rfl, ihl⟩, ?_⟩
          simp only [sumLen]
          omega

theorem pagesLayout_bounds :
    ∀ (pages : List JICPage) (s : Nat), pagesLayout s pages →
      ∀ p ∈ pages, s + 6 ≤ p.pos ∧ p.pos + p.size ≤ s + sumLen pages := by
  intro pages
  induction pages with
  | nil =>
    intro s _ p hp
    simp at hp
  | cons q rest ih =>
    intro s hl p hp
    obtain ⟨hq, hrest⟩ := hl
    rcases List.mem_cons.mp hp with rfl | hmem
    · refine ⟨by omega, ?_⟩
      simp only [sumLen]
      omega
    · obtain ⟨b1, b2⟩ := ih (s + 6 + q.size) hrest p hmem
      refine ⟨by omega, ?_⟩
      simp only [sumLen]
      omega

theorem pagesLayout_pairwise :
    ∀ (pages : List JICPage) (s : Nat), pagesLayout s pages →
      pages.Pairwise (fun p q => p.pos < q.pos) := by
  intro pages
  induction pages with
  | nil =>
    intro s _
    simp
  | cons q rest ih =>
    intro s hl
    obtain ⟨hq, hrest⟩ := hl
    refine List.Pairwise.cons ?_ (ih _ hrest)
    intro p hp
    have hb := (pagesLayout_bounds rest (s + 6 + q.size) hrest p hp).1
    omega

theorem pagesLayout_get :
    ∀ (pages : List JICPage) (s i : Nat) (hi : i < pages.length),
      pagesLayout s pages →
      (pages.get ⟨i, hi⟩).pos = s + sumLen (pages.take i) + 6 := by
  intro pages
  induction pages with
  | nil =>
    intro s i hi
    simp at hi
  | cons q rest ih =>
    intro s i hi hl
    obtain ⟨hq, hrest⟩ := hl
    match i with
    | 0 =>
      simpa [sumLen] using hq
    | Nat.succ j =>
      have hrec := ih (s + 6 + q.size) j (by simpa using hi) hrest
      simp only [List.get_cons_succ, List.take_succ_cons, sumLen]
      omega

theorem parse_ok_inv (src : List Nat) (strict : Bool) (pages : List JICPage)
    (h : parse src strict = .ok pages) :
    (readAt src 0 12).length = 12 ∧ checkRt strict (readAt src 0 12) = true ∧
      readRecHeaders src 12 = .ok (pages, src.length) := by
  simp only [parse] at h
  split at h
  · rename_i hroot
    split at h
    · rename_i hrt
      split at h
      · simp at h
      · rename_i pages' endPos heq
        split at h
        · rename_i hend
          simp only [Except.ok.injEq] at h
          subst h
          exact ⟨hroot, hrt, by rw [heq, hend]⟩
        · simp at h
    · simp at h
  · simp at h

theorem openJIC_ok_inv (src : List Nat) (strict : Bool) (r : JICReader)
    (h : openJIC src strict = .ok r) :
    r.src = src ∧ r.strict = strict ∧ parse src strict = .ok r.headers ∧
      r.typedict = buildTypedict r.headers := by
  simp only [openJIC] at h
  split at h
  · simp at h
  · rename_i headers heq
    simp only [Except.ok.injEq] at h
    subst h
    exact ⟨rfl, rfl, heq, rfl⟩

theorem rrh_ne_badRootTag (src : List Nat) :
    ∀ (fuel pos : Nat), readRecHeadersFuel src fuel pos ≠ .error .badRootTag := by
  intro fuel
  induction fuel with
  | zero =>
    intro pos h
    simp [readRecHeadersFuel] at h
  | succ f ih =>
    intro pos h
    simp only [readRecHeadersFuel] at h
    split at h
    · simp at h
    · split at h
      · simp at h
      · split at h
        · rename_i e heq
          simp only [Except.error.injEq] at h
          subst h
          exact ih _ heq
        · simp at h

theorem parse_badRootTag_iff (src : List Nat) (strict : Bool) (h12 : 12 ≤ src.length) :
    parse src strict = .error .badRootTag ↔ checkRt strict (readAt src 0 12) = false := by
  have hlen : (readAt src 0 12).length = 12 := by
    rw [length_readAt]
    omega
  cases hc : checkRt strict (readAt src 0 12) with
  | false =>
    simp [parse, hlen, hc]
  | true =>
    constructor
    · intro h
      exfalso
      cases hm : readRecHeaders src 12 with
      | error e =>
        simp only [parse, hlen, hc, if_true, hm] at h
        simp only [Except.error.injEq] at h
        subst h
        rw [readRecHeaders] at hm
        exact rrh_ne_badRootTag src _ _ hm
      | ok pe =>
        obtain ⟨pages, endPos⟩ := pe
        simp only [parse, hlen, hc, if_true, hm] at h
        split at h <;> simp at h
    · intro h
      simp at h

/-- C1: for every byte source on which `JICReader` construction succeeds, the
12 root-tag bytes plus the sum over all indexed pages of (6 header bytes plus
the page's size field) equals the source length, and each page's recorded
`pos` equals 12 plus the sum of (6 + size) over all earlier pages, plus 6. -/
theorem claim_c1_size_accounting :
    ∀ (src : List Nat) (strict : Bool) (pages : List JICPage),
      parse src strict = .ok pages →
      12 + sumLen pages = src.length ∧
      ∀ (i : Nat) (hi : i < pages.length),
        (pages.get ⟨i, hi⟩).pos = 12 + sumLen (pages.take i) + 6 := by
  intro src strict pages h
  obtain ⟨_, _, hloop⟩ := parse_ok_inv src strict pages h
  rw [readRecHeaders] at hloop
  obtain ⟨hl, he⟩ := rrh_ok_layout src _ _ _ _ hloop
  exact ⟨by omega, fun i hi => pagesLayout_get pages 12 i hi hl⟩

/-- Witness for C1 on the concrete container `sample1`. -/
theorem claim_c1_witness :
    12 + sumLen [⟨28, 18, 14⟩] = sample1.length :=
  (claim_c1_size_accounting sample1 true [⟨28, 18, 14⟩] (by rfl)).1

/-- C3: with at least 12 bytes present, strict opening passes the root check
iff the first 12 bytes classify exactly as `JIC_HEADER` (failing with the
bad-root-tag error otherwise), lenient opening passes it iff they start with
"JIC"; a root whose signature is "JIC" but whose `field_b` is not 8 is
rejected strictly and accepted leniently. -/
theorem claim_c3_root_tag_modes :
    (∀ src : List Nat, 12 ≤ src.length →
      (parse src true = .error .badRootTag ↔
        ¬ classify (readAt src 0 12) = some "JIC_HEADER") ∧
      (parse src false = .error .badRootTag ↔
        ¬ check_ext_unstrict (readAt src 0 12) [74, 73, 67] = true)) ∧
    parse jicFieldB9 true = .error .badRootTag ∧
    parse jicFieldB9 false = .ok [] := by
  refine ⟨?_, by rfl, by rfl⟩
  intro src h12
  constructor
  · rw [parse_badRootTag_iff src true h12]
    simp [checkRt]
  · rw [parse_badRootTag_iff src false h12]
    simp [checkRt]

/-- Witness for C3 on the canonical root tag. -/
theorem claim_c3_witness :
    parse jicRootTag true = .error .badRootTag ↔
      ¬ classify (readAt jicRootTag 0 12) = some "JIC_HEADER" :=
  (claim_c3_root_tag_modes.1 jicRootTag (by decide)).1

/-- C5: during the scan, a zero-byte header read ends the loop successfully
with the cursor unchanged, a 1–5 byte header read raises the stray-bytes
(truncated header) error, and that error makes opening fail. -/
theorem claim_c5_header_read_termination :
    ∀ (src : List Nat) (pos fuel : Nat), 0 < fuel →
      ((readAt src pos 6).length = 0 → readRecHeadersFuel src fuel pos = .ok ([], pos)) ∧
      (1 ≤ (readAt src pos 6).length → (readAt src pos 6).length ≤ 5 →
        readRecHeadersFuel src fuel pos = .error .truncatedHeader) ∧
      (∀ strict : Bool, (readAt src 0 12).length = 12 →
        checkRt strict (readAt src 0 12) = true →
        readRecHeaders src 12 = .error .truncatedHeader →
        parse src strict = .error .truncatedHeader) := by
  intro src pos fuel hf
  refine ⟨fun h => rrh_eof src fuel pos hf h,
          fun h1 h5 => rrh_stray src fuel pos hf (by omega) (by omega), ?_⟩
  intro strict hlen hrt hloop
  simp [parse, hlen, hrt, hloop]

/-- Witness for C5: a clean end of source, and three stray trailing bytes. -/
theorem claim_c5_witness :
    readRecHeadersFuel jicRootTag 13 12 = .ok ([], 12) ∧
    readRecHeadersFuel (jicRootTag ++ [1, 2, 3]) 16 12 = .error .truncatedHeader ∧
    parse (jicRootTag ++ [1, 2, 3]) true = .error .truncatedHeader :=
  ⟨(claim_c5_header_read_termination jicRootTag 12 13 (by decide)).1 (by decide),
   (claim_c5_header_read_termination (jicRootTag ++ [1, 2, 3]) 12 16 (by decide)).2.1
     (by decide) (by decide),
   (claim_c5_header_read_termination (jicRootTag ++ [1, 2, 3]) 12 16 (by decide)).2.2
     true (by decide) (by decide) (by rfl)⟩

/-- C6: once the scan completes, opening succeeds exactly when the cursor
equals the source length, and otherwise fails with the trailing-or-missing
bytes error carrying the signed byte difference. -/
theorem claim_c6_eof_accounting :
    ∀ (src : List Nat) (strict : Bool) (pages : List JICPage) (endPos : Nat),
      (readAt src 0 12).length = 12 →
      checkRt strict (readAt src 0 12) = true →
      readRecHeaders src 12 = .ok (pages, endPos) →
      (parse src strict = .ok pages ↔ endPos = src.length) ∧
      (endPos ≠ src.length →
        parse src strict =
          .error (.trailingOrMissingBytes ((endPos : Int) - (src.length : Int)))) := by
  intro src strict pages endPos hlen hrt hloop
  by_cases he : endPos = src.length
  · simp [parse, hlen, hrt, hloop, he]
  · constructor
    · simp [parse, hlen, hrt, hloop, he]
    · intro _
      simp [parse, hlen, hrt, hloop, he]

/-- Witness for C6: a declared page size running 100 bytes past the end. -/
theorem claim_c6_witness :
    parse (jicRootTag ++ [28, 0] ++ u32le 100) true =
      .error (.trailingOrMissingBytes 100) :=
  (claim_c6_eof_accounting (jicRootTag ++ [28, 0] ++ u32le 100) true
      [⟨28, 18, 100⟩] 118 (by decide) (by decide) (by rfl)).2 (by decide)

theorem classify_eq_none_of_ne (buf : List Nat)
    (h1 : buf ≠ S_pack [74, 73, 67] 0 0x08) (h2 : buf ≠ S_pack [83, 79, 70] 0 0x0B)
    (h3 : buf ≠ S_pack [80, 79, 70] 0x010000 0x07) (h4 : buf ≠ S_pack [] 0 0x010800) :
    classify buf = none := by
  have e1 : (buf == S_pack [74, 73, 67] 0 0x08) = false := by
    simpa using h1
  have e2 : (buf == S_pack [83, 79, 70] 0 0x0B) = false := by
    simpa using h2
  have e3 : (buf == S_pack [80, 79, 70] 0x010000 0x07) = false := by
    simpa using h3
  have e4 : (buf == S_pack [] 0 0x010800) = false := by
    simpa using h4
  simp [classify, classificator, List.lookup, e1, e2, e3, e4]

theorem getD_set_self (l : List Nat) (i v : Nat) (hi : i < l.length) :
    (l.set i v).getD i 0 = v := by
  simp [List.getD_eq_getElem?_getD, List.getElem?_set_eq_of_lt, hi]

theorem getD_set_other (l : List Nat) (i j v : Nat) (hij : i ≠ j) :
    (l.set i v).getD j 0 = l.getD j 0 := by
  simp [List.getD_eq_getElem?_getD, List.getElem?_set_ne, hij]

theorem set_ne_self_of_ne (l : List Nat) (i v : Nat) (hi : i < l.length)
    (hv : v ≠ l.getD i 0) : l.set i v ≠ l := by
  intro he
  apply hv
  calc v = (l.set i v).getD i 0 := (getD_set_self l i v hi).symm
  _ = l.getD i 0 := by rw [he]

theorem set_ne_of_two_diffs (l k : List Nat) (j1 j2 : Nat) (hj : j1 ≠ j2)
    (h1 : l.getD j1 0 ≠ k.getD j1 0) (h2 : l.getD j2 0 ≠ k.getD j2 0) :
    ∀ (i v : Nat), l.set i v ≠ k := by
  intro i v he
  by_cases hij : i = j1
  · apply h2
    calc l.getD j2 0 = (l.set i v).getD j2 0 := (getD_set_other l i j2 v (by omega)).symm
    _ = k.getD j2 0 := by rw [he]
  · apply h1
    calc l.getD j1 0 = (l.set i v).getD j1 0 := (getD_set_other l i j1 v hij).symm
    _ = k.getD j1 0 := by rw [he]

theorem classify_set_perturb :
    ∀ p ∈ classificator, ∀ i < 12, ∀ v : Nat,
      v ≠ p.1.getD i 0 → classify (p.1.set i v) = none := by
  have h12 : ∀ i v, (S_pack [74, 73, 67] 0 0x08).set i v ≠ S_pack [83, 79, 70] 0 0x0B :=
    set_ne_of_two_diffs _ _ 0 1 (by decide) (by decide) (by decide)
  have h13 : ∀ i v, (S_pack [74, 73, 67] 0 0x08).set i v ≠ S_pack [80, 79, 70] 0x010000 0x07 :=
    set_ne_of_two_diffs _ _ 0 1 (by decide) (by decide) (by decide)
  have h14 : ∀ i v, (S_pack [74, 73, 67] 0 0x08).set i v ≠ S_pack [] 0 0x010800 :=
    set_ne_of_two_diffs _ _ 0 1 (by decide) (by decide) (by decide)
  have h21 : ∀ i v, (S_pack [83, 79, 70] 0 0x0B).set i v ≠ S_pack [74, 73, 67] 0 0x08 :=
    set_ne_of_two_diffs _ _ 0 1 (by decide) (by decide) (by decide)
  have h23 : ∀ i v, (S_pack [83, 79, 70] 0 0x0B).set i v ≠ S_pack [80, 79, 70] 0x010000 0x07 :=
    set_ne_of_two_diffs _ _ 0 6 (by decide) (by decide) (by decide)
  have h24 : ∀ i v, (S_pack [83, 79, 70] 0 0x0B).set i v ≠ S_pack [] 0 0x010800 :=
    set_ne_of_two_diffs _ _ 0 1 (by decide) (by decide) (by decide)
  have h31 : ∀ i v, (S_pack [80, 79, 70] 0x010000 0x07).set i v ≠ S_pack [74, 73, 67] 0 0x08 :=
    set_ne_of_two_diffs _ _ 0 1 (by decide) (by decide) (by decide)
  have h32 : ∀ i v, (S_pack [80, 79, 70] 0x010000 0x07).set i v ≠ S_pack [83, 79, 70] 0 0x0B :=
    set_ne_of_two_diffs _ _ 0 6 (by decide) (by decide) (by decide)
  have h34 : ∀ i v, (S_pack [80, 79, 70] 0x010000 0x07).set i v ≠ S_pack [] 0 0x010800 :=
    set_ne_of_two_diffs _ _ 0 1 (by decide) (by decide) (by decide)
  have h41 : ∀ i v, (S_pack [] 0 0x010800).set i v ≠ S_pack [74, 73, 67] 0 0x08 :=
    set_ne_of_two_diffs _ _ 0 1 (by decide) (by decide) (by decide)
  have h42 : ∀ i v, (S_pack [] 0 0x010800).set i v ≠ S_pack [83, 79, 70] 0 0x0B :=
    set_ne_of_two_diffs _ _ 0 1 (by decide) (by decide) (by decide)
  have h43 : ∀ i v, (S_pack [] 0 0x010800).set i v ≠ S_pack [80, 79, 70] 0x010000 0x07 :=
    set_ne_of_two_diffs _ _ 0 1 (by decide) (by decide) (by decide)
  intro p hp i hi v hv
  simp only [classificator, List.mem_cons, List.not_mem_nil, or_false] at hp
  rcases hp with rfl | rfl | rfl | rfl
  · exact classify_eq_none_of_ne _ (set_ne_self_of_ne _ i v hi hv) (h12 i v) (h13 i v) (h14 i v)
  · exact classify_eq_none_of_ne _ (h21 i v) (set_ne_self_of_ne _ i v hi hv) (h23 i v) (h24 i v)
  · exact classify_eq_none_of_ne _ (h31 i v) (h32 i v) (set_ne_self_of_ne _ i v hi hv) (h34 i v)
  · exact classify_eq_none_of_ne _ (h41 i v) (h42 i v) (h43 i v) (set_ne_self_of_ne _ i v hi hv)

/-- C7: each of the four documented 12-byte encodings classifies to its named
kind, every other byte pattern — in particular every one-byte perturbation of
a table entry — classifies to `none`, and classification is total (it is a
function into `Option`, never an error). -/
theorem claim_c7_classifier_table :
    classify (S_pack [74, 73, 67] 0 0x08) = some "JIC_HEADER" ∧
    classify (S_pack [83, 79, 70] 0 0x0B) = some "SOF_HEADER" ∧
    classify (S_pack [80, 79, 70] 0x010000 0x07) = some "POF_HEADER" ∧
    classify (S_pack [] 0 0x010800) = some "RAW_FIRMWARE" ∧
    (∀ buf : List Nat,
      buf ≠ S_pack [74, 73, 67] 0 0x08 → buf ≠ S_pack [83, 79, 70] 0 0x0B →
      buf ≠ S_pack [80, 79, 70] 0x010000 0x07 → buf ≠ S_pack [] 0 0x010800 →
      classify buf = none) ∧
    (∀ p ∈ classificator, ∀ i < 12, ∀ v < 256,
      v ≠ p.1.getD i 0 → classify (p.1.set i v) = none) :=
  ⟨rfl, rfl, rfl, rfl, classify_eq_none_of_ne,
   fun p hp i hi v _ hv => classify_set_perturb p hp i hi v hv⟩

/-- Witness for C7: an all-zero 12-byte pattern classifies to `none`. -/
theorem claim_c7_witness : classify (List.replicate 12 0) = none :=
  claim_c7_classifier_table.2.2.2.2.1 (List.replicate 12 0)
    (by decide) (by decide) (by decide) (by decide)

theorem lookup_addToTypedict :
    ∀ (D : List (Nat × List Nat)) (u i t : Nat),
      typedictLookup (addToTypedict D u i) t =
        if u = t then some ((typedictLookup D t).getD [] ++ [i])
        else typedictLookup D t := by
  intro D
  induction D with
  | nil =>
    intro u i t
    by_cases h : u = t <;> simp [addToTypedict, typedictLookup, h]
  | cons e rest ih =>
    intro u i t
    obtain ⟨a, jj⟩ := e
    by_cases hau : a = u
    · subst hau
      by_cases hat : a = t <;> simp [addToTypedict, typedictLookup, hat]
    · by_cases hat : a = t
      · subst hat
        have hut : ¬ u = a := fun h => hau h.symm
        simp [addToTypedict, typedictLookup, hau, hut]
      · simp [addToTypedict, typedictLookup, hau, hat, ih]

theorem lookup_buildTypedictFrom :
    ∀ (hs : List JICPage) (i : Nat) (D : List (Nat × List Nat)) (t : Nat),
      typedictLookup (buildTypedictFrom i hs D) t =
        if (typedictLookup D t).isNone ∧ typeIdxs i hs t = [] then none
        else some ((typedictLookup D t).getD [] ++ typeIdxs i hs t) := by
  intro hs
  induction hs with
  | nil =>
    intro i D t
    simp only [buildTypedictFrom, typeIdxs]
    cases h : typedictLookup D t <;> simp [h]
  | cons p rest ih =>
    intro i D t
    simp only [buildTypedictFrom]
    rw [ih]
    by_cases hpt : p.type = t
    · simp only [typeIdxs, hpt, if_pos rfl]
      rw [lookup_addToTypedict]
      simp only [hpt, if_pos rfl]
      cases h : typedictLookup D t <;> simp [h]
    · simp only [typeIdxs, hpt, if_neg hpt]
      rw [lookup_addToTypedict]
      simp [hpt]

theorem typeIdxs_eq_nil_iff :
    ∀ (hs : List JICPage) (i t : Nat),
      typeIdxs i hs t = [] ↔ hs.filter (fun h => decide (h.type = t)) = [] := by
  intro hs
  induction hs with
  | nil =>
    intro i t
    simp [typeIdxs]
  | cons p rest ih =>
    intro i t
    by_cases hpt : p.type = t <;> simp [typeIdxs, List.filter_cons, hpt, ih]

theorem pyGet_natCast (l : List JICPage) (j : Nat) (hj : j < l.length) :
    pyGet l (j : Int) = .ok (l.get ⟨j, hj⟩) := by
  have hc : 0 ≤ (j : Int) ∧ (j : Int) < (l.length : Int) := by
    constructor
    · omega
    · omega
  simp only [pyGet, dif_pos hc]
  rfl

theorem read_page_ok (r : JICReader) (p : JICPage) (hb : p.pos + p.size ≤ r.src.length) :
    read_page r p = .ok (readAt r.src p.pos p.size) := by
  have hl : (readAt r.src p.pos p.size).length = p.size := by
    rw [length_readAt]
    omega
  simp [read_page, hl]

theorem read_page_by_id_natCast (r : JICReader) (j : Nat) (hj : j < r.headers.length)
    (hb : (r.headers.get ⟨j, hj⟩).pos + (r.headers.get ⟨j, hj⟩).size ≤ r.src.length) :
    read_page_by_id r (j : Int) =
      .ok (readAt r.src (r.headers.get ⟨j, hj⟩).pos (r.headers.get ⟨j, hj⟩).size) := by
  simp only [read_page_by_id, pyGet_natCast r.headers j hj]
  exact read_page_ok r _ hb

theorem mapExcept_read_typeIdxs :
    ∀ (hs : List JICPage) (k : Nat) (r : JICReader) (t : Nat),
      (∀ (j : Nat) (hj : j < hs.length),
        read_page_by_id r ((k + j : Nat) : Int) =
          .ok (readAt r.src (hs.get ⟨j, hj⟩).pos (hs.get ⟨j, hj⟩).size)) →
      mapExcept (fun (i : Nat) => read_page_by_id r (i : Int)) (typeIdxs k hs t) =
        .ok ((hs.filter (fun h => decide (h.type = t))).map
              (fun h => readAt r.src h.pos h.size)) := by
  intro hs
  induction hs with
  | nil =>
    intro k r t hread
    simp [typeIdxs, mapExcept]
  | cons p rest ih =>
    intro k r t hread
    have h0 : read_page_by_id r (k : Int) = .ok (readAt r.src p.pos p.size) := by
      have hx := hread 0 (by simp)
      simpa using hx
    have hrest : ∀ (j : Nat) (hj : j < rest.length),
        read_page_by_id r (((k + 1) + j : Nat) : Int) =
          .ok (readAt r.src (rest.get ⟨j, hj⟩).pos (rest.get ⟨j, hj⟩).size) := by
      intro j hj
      have hx := hread (j + 1) (by simpa using Nat.succ_lt_succ hj)
      have harith : k + (j + 1) = (k + 1) + j := by omega
      rw [harith] at hx
      simpa using hx
    by_cases hpt : p.type = t
    · simp [typeIdxs, hpt, mapExcept, h0, ih (k + 1) r t hrest, List.filter_cons]
    · simp [typeIdxs, hpt, List.filter_cons, ih (k + 1) r t hrest]

theorem read_pages_by_type_ok (src : List Nat) (strict : Bool) (r : JICReader)
    (hopen : openJIC src strict = .ok r) (t : Nat) :
    read_pages_by_type r t =
      .ok ((r.headers.filter (fun h => decide (h.type = t))).map
            (fun h => readAt r.src h.pos h.size)) := by
  obtain ⟨hsrc, hstrict, hparse, htd⟩ := openJIC_ok_inv src strict r hopen
  obtain ⟨_, _, hloop⟩ := parse_ok_inv src strict r.headers hparse
  rw [readRecHeaders] at hloop
  obtain ⟨hlayout, hend⟩ := rrh_ok_layout src _ _ _ _ hloop
  have hbound : ∀ p ∈ r.headers, p.pos + p.size ≤ r.src.length := by
    intro p hp
    have hb := (pagesLayout_bounds r.headers 12 hlayout p hp).2
    rw [hsrc]
    omega
  have hread : ∀ (j : Nat) (hj : j < r.headers.length),
      read_page_by_id r ((0 + j : Nat) : Int) =
        .ok (readAt r.src (r.headers.get ⟨j, hj⟩).pos (r.headers.get ⟨j, hj⟩).size) := by
    intro j hj
    rw [Nat.zero_add]
    exact read_page_by_id_natCast r j hj (hbound _ (r.headers.get_mem _ _))
  by_cases hnil : typeIdxs 0 r.headers t = []
  · have hlk : typedictLookup r.typedict t = none := by
      rw [htd, buildTypedict, lookup_buildTypedictFrom]
      simp [typedictLookup, hnil]
    have hfil : r.headers.filter (fun h => decide (h.type = t)) = [] :=
      (typeIdxs_eq_nil_iff r.headers 0 t).mp hnil
    simp [read_pages_by_type, hlk, hfil]
  · have hlk : typedictLookup r.typedict t = some (typeIdxs 0 r.headers t) := by
      rw [htd, buildTypedict, lookup_buildTypedictFrom]
      simp [typedictLookup, hnil]
    simp only [read_pages_by_type, hlk]
    exact mapExcept_read_typeIdxs r.headers 0 r t hread

/-- C8: for every successfully opened container and any type code, reading
pages by type succeeds with one payload per indexed page of that type, in
strictly increasing byte-offset (file) order, and with the empty sequence —
not an error — when the type is absent. -/
theorem claim_c8_read_pages_by_type :
    ∀ (src : List Nat) (strict : Bool) (r : JICReader), openJIC src strict = .ok r →
      ∀ t : Nat,
        read_pages_by_type r t =
          .ok ((r.headers.filter (fun h => decide (h.type = t))).map
                (fun h => readAt r.src h.pos h.size)) ∧
        (∀ ps, read_pages_by_type r t = .ok ps →
          ps.length = (r.headers.filter (fun h => decide (h.type = t))).length) ∧
        ((r.headers.filter (fun h => decide (h.type = t))).map JICPage.pos).Pairwise
          (fun a b => a < b) := by
  intro src strict r hopen t
  refine ⟨read_pages_by_type_ok src strict r hopen t, ?_, ?_⟩
  · intro ps hps
    rw [read_pages_by_type_ok src strict r hopen t] at hps
    simp only [Except.ok.injEq] at hps
    subst hps
    simp
  · obtain ⟨hsrc, hstrict, hparse, htd⟩ := openJIC_ok_inv src strict r hopen
    obtain ⟨_, _, hloop⟩ := parse_ok_inv src strict r.headers hparse
    rw [readRecHeaders] at hloop
    obtain ⟨hlayout, _⟩ := rrh_ok_layout src _ _ _ _ hloop
    have hpw := pagesLayout_pairwise r.headers 12 hlayout
    have hpwf := hpw.filter (fun h => decide (h.type = t))
    exact List.pairwise_map.mpr hpwf

/-- Witness for C8 on the concrete container `sample1` at type 28. -/
theorem claim_c8_witness :
    read_pages_by_type sampleReader 28 =
      .ok [[0, 0, 0, 0, 0, 0, 0, 0, 0, 8, 1, 0, 171, 205]] :=
  (claim_c8_read_pages_by_type sample1 true sampleReader (by rfl) 28).1

/-- C4: on a successfully opened container, strict extraction fails with the
page-count error (carrying the count) unless exactly one type-28 page exists,
lenient extraction fails with that error exactly when no type-28 page exists,
and a successful lenient extraction always comes from the first type-28 page
in file order. -/
theorem claim_c4_firmware_count_policy :
    ∀ (src : List Nat) (strict : Bool) (r : JICReader), openJIC src strict = .ok r →
      (r.strict = true → (r.headers.filter (fun h => decide (h.type = 28))).length ≠ 1 →
        extract_firmware r =
          .error (.unexpectedFirmwarePageCount
            (r.headers.filter (fun h => decide (h.type = 28))).length)) ∧
      (r.strict = false → (r.headers.filter (fun h => decide (h.type = 28))).length = 0 →
        extract_firmware r = .error (.unexpectedFirmwarePageCount 0)) ∧
      (r.strict = false → (r.headers.filter (fun h => decide (h.type = 28))).length ≠ 0 →
        ∀ m, extract_firmware r ≠ .error (.unexpectedFirmwarePageCount m)) ∧
      (∀ fw, r.strict = false → extract_firmware r = .ok fw →
        ∃ h0 rest, r.headers.filter (fun h => decide (h.type = 28)) = h0 :: rest ∧
          fw = (readAt r.src h0.pos h0.size).drop 12) := by
  intro src strict r hopen
  have hpp := read_pages_by_type_ok src strict r hopen 28
  have hlen :
      ((r.headers.filter (fun h => decide (h.type = 28))).map
        (fun h => readAt r.src h.pos h.size)).length =
      (r.headers.filter (fun h => decide (h.type = 28))).length := by
    simp
  refine ⟨?_, ?_, ?_, ?_⟩
  · intro hstrict hne
    simp [extract_firmware, hpp, hstrict, hne]
  · intro hstrict h0
    simp [extract_firmware, hpp, hstrict, h0]
  · intro hstrict hne m hm
    have hFne : r.headers.filter (fun h => decide (h.type = 28)) ≠ [] := by
      intro hnil
      rw [hnil] at hne
      exact hne rfl
    obtain ⟨f0, rest, hFeq⟩ := List.exists_cons_of_ne_nil hFne
    rw [hFeq] at hpp
    simp [extract_firmware, hpp, hstrict] at hm
    split at hm
    · simp at hm
    · simp at hm
  · intro fw hstrict hex
    simp only [extract_firmware, hpp, hstrict] at hex
    by_cases hF : r.headers.filter (fun h => decide (h.type = 28)) = []
    · rw [hF] at hex
      simp at hex
    · obtain ⟨f0, rest, hFeq⟩ := List.exists_cons_of_ne_nil hF
      refine ⟨f0, rest, hFeq, ?_⟩
      rw [hFeq] at hex
      simp at hex
      split at hex
      · simp only [Except.ok.injEq] at hex
        exact hex.symm
      · simp at hex

/-- Witness for C4: a strict container holding two firmware pages fails with
the page-count error reporting 2. -/
theorem claim_c4_witness :
    extract_firmware twoFwReader = .error (.unexpectedFirmwarePageCount 2) :=
  (claim_c4_firmware_count_policy twoFwSrc true twoFwReader (by rfl)).1 rfl (by decide)

/-- C10: on a successfully opened container whose first type-28 page is
shorter than 12 bytes, extraction fails with the wrong-tag-size error in
lenient mode as well as in strict mode (with the single-page count
requirement met), because the 12-byte inner tag is constructed before the
strict-only classification check. -/
theorem claim_c10_short_firmware_page :
    ∀ (src : List Nat) (strict : Bool) (r : JICReader), openJIC src strict = .ok r →
      ∀ (h0 : JICPage) (rest : List JICPage),
        r.headers.filter (fun h => decide (h.type = 28)) = h0 :: rest →
        h0.size < 12 →
        (r.strict = false → extract_firmware r = .error .malformedTag) ∧
        (r.strict = true → rest = [] → extract_firmware r = .error .malformedTag) := by
  intro src strict r hopen h0 rest hFeq hsize
  have hpp := read_pages_by_type_ok src strict r hopen 28
  rw [hFeq] at hpp
  obtain ⟨hsrc, hstrict, hparse, htd⟩ := openJIC_ok_inv src strict r hopen
  obtain ⟨_, _, hloop⟩ := parse_ok_inv src strict r.headers hparse
  rw [readRecHeaders] at hloop
  obtain ⟨hlayout, hend⟩ := rrh_ok_layout src _ _ _ _ hloop
  have hmem : h0 ∈ r.headers := by
    have hmf : h0 ∈ r.headers.filter (fun h => decide (h.type = 28)) := by
      rw [hFeq]
      simp
    exact List.mem_of_mem_filter hmf
  have hbound := (pagesLayout_bounds r.headers 12 hlayout h0 hmem).2
  have hdlen : (readAt r.src h0.pos h0.size).length = h0.size := by
    rw [hsrc, length_readAt]
    omega
  have htag : ¬ ((readAt r.src h0.pos h0.size).take 12).length = 12 := by
    simp only [List.length_take, hdlen]
    omega
  have hlt : (readAt r.src h0.pos h0.size).length < 12 := by
    omega
  constructor
  · intro hs
    simp [extract_firmware, hpp, hs]
    omega
  · intro hs hrest
    subst hrest
    simp [extract_firmware, hpp, hs]
    omega

/-- Witness for C10: a lenient container whose single firmware page holds
only 5 bytes. -/
theorem claim_c10_witness :
    extract_firmware shortFwReader = .error .malformedTag :=
  (claim_c10_short_firmware_page shortFwSrc false shortFwReader (by rfl)
      ⟨28, 18, 5⟩ [] (by rfl) (by decide)).1 rfl

/-- C9 counterexample: on the opened one-page container `sample1`, index -1 —
outside [0, 1) — does not fail: Python's negative indexing returns the last
page's payload. -/
theorem claim_c9_counterexample :
    openJIC sample1 true = .ok sampleReader ∧
    sampleReader.headers.length = 1 ∧
    read_page_by_id sampleReader (-1) =
      .ok [0, 0, 0, 0, 0, 0, 0, 0, 0, 8, 1, 0, 171, 205] :=
  ⟨rfl, rfl, rfl⟩

/-- C9 amended: `read_page_by_id` is bounds-checked over Python's index
range: for every successfully opened container with n pages, every integer
index outside [-n, n) fails with an index error (indices in [-n, 0) follow
Python's negative-index convention and may succeed). -/
theorem claim_c9_amended_bounds :
    ∀ (src : List Nat) (strict : Bool) (r : JICReader) (i : Int),
      openJIC src strict = .ok r →
      ¬ (-(r.headers.length : Int) ≤ i ∧ i < (r.headers.length : Int)) →
      read_page_by_id r i = .error .indexOutOfRange := by
  intro src strict r i _ hout
  have hc1 : ¬ (0 ≤ i ∧ i < (r.headers.length : Int)) := by
    intro hc
    exact hout ⟨by omega, hc.2⟩
  have hc2 : ¬ (i < 0 ∧ 0 ≤ i + (r.headers.length : Int)) := by
    intro hc
    exact hout ⟨by omega, by omega⟩
  simp only [read_page_by_id, pyGet, dif_neg hc1, dif_neg hc2]

/-- Witness for the amended C9: index 5 on the one-page container fails. -/
theorem claim_c9_amended_witness :
    read_page_by_id sampleReader 5 = .error .indexOutOfRange :=
  claim_c9_amended_bounds sample1 true sampleReader 5 (by rfl) (by decide)

/-- C2: for a synthetic container made of the JIC root tag, one type-28
record of size 12+N, and a raw-firmware tag followed by any N payload bytes,
opening succeeds in either mode and `extract_firmware` returns exactly those
N bytes. -/
theorem claim_c2_roundtrip :
    ∀ (payload : List Nat) (strict : Bool),
      (∀ b ∈ payload, b < 256) → 12 + payload.length < 4294967296 →
      ∃ r : JICReader,
        openJIC
          (S_pack [74, 73, 67] 0 0x08 ++ [28, 0] ++ u32le (12 + payload.length)
            ++ S_pack [] 0 0x010800 ++ payload) strict = .ok r ∧
        extract_firmware r = .ok payload := by
  intro payload strict _ hbound
  have hsz : leNat (u32le (12 + payload.length)) = 12 + payload.length :=
    leNat_u32le _ hbound
  have hassoc :
      S_pack [74, 73, 67] 0 0x08 ++ [28, 0] ++ u32le (12 + payload.length)
          ++ S_pack [] 0 0x010800 ++ payload
        = (S_pack [74, 73, 67] 0 0x08 ++ ([28, 0] ++ u32le (12 + payload.length)))
            ++ (S_pack [] 0 0x010800 ++ payload) := by
    simp [List.append_assoc]
  set src := S_pack [74, 73, 67] 0 0x08 ++ [28, 0] ++ u32le (12 + payload.length)
      ++ S_pack [] 0 0x010800 ++ payload with hsrcdef
  have hpre18 : (S_pack [74, 73, 67] 0 0x08 ++ ([28, 0] ++ u32le (12 + payload.length))).length
      = 18 := by
    simp [S_pack, pack4s, u32le]
  have hlenSrc : src.length = 30 + payload.length := by
    rw [hsrcdef]
    simp [S_pack, pack4s, u32le]
    omega
  have hroot : readAt src 0 12 = S_pack [74, 73, 67] 0 0x08 := by
    rw [hsrcdef, readAt, List.drop_zero]
    rw [List.append_assoc, List.append_assoc, List.append_assoc]
    exact List.take_left' rfl
  have hrootlen : (readAt src 0 12).length = 12 := by
    rw [hroot]
    rfl
  have hrt : checkRt strict (readAt src 0 12) = true := by
    rw [hroot]
    cases strict <;> rfl
  have hsrcR : src = S_pack [74, 73, 67] 0 0x08
      ++ ([28, 0] ++ (u32le (12 + payload.length)
        ++ (S_pack [] 0 0x010800 ++ payload))) := by
    rw [hsrcdef]
    simp [List.append_assoc]
  have hdrop12 : src.drop 12 = [28, 0] ++ (u32le (12 + payload.length)
      ++ (S_pack [] 0 0x010800 ++ payload)) := by
    rw [hsrcR]
    exact List.drop_left' rfl
  have hread6 : readAt src 12 6 = [28, 0] ++ u32le (12 + payload.length) := by
    rw [readAt, hdrop12, ← List.append_assoc]
    refine List.take_left' ?_
    simp [u32le]
  have hread6len : (readAt src 12 6).length = 6 := by
    rw [hread6]
    simp [u32le]
  have htake2 : (readAt src 12 6).take 2 = [28, 0] := by
    rw [hread6]
    exact List.take_left' rfl
  have hdrop2 : (readAt src 12 6).drop 2 = u32le (12 + payload.length) := by
    rw [hread6]
    exact List.drop_left' rfl
  have hnext : (12 + 6) + leNat ((readAt src 12 6).drop 2) = 30 + payload.length := by
    rw [hdrop2, hsz]
    omega
  have heofread : (readAt src (30 + payload.length) 6).length = 0 := by
    rw [readAt, List.drop_eq_nil_of_le (by omega : src.length ≤ 30 + payload.length)]
    rfl
  have hloop : readRecHeaders src 12 =
      .ok ([⟨28, 18, 12 + payload.length⟩], 30 + payload.length) := by
    rw [readRecHeaders, hlenSrc]
    rw [show 30 + payload.length + 1 = (30 + payload.length) + 1 from rfl]
    rw [rrh_cont src (30 + payload.length) 12 hread6len, hnext,
        rrh_eof src (30 + payload.length) (30 + payload.length) (by omega) heofread]
    rw [htake2, hdrop2, hsz]
    simp [leNat]
  have hparse : parse src strict = .ok [⟨28, 18, 12 + payload.length⟩] := by
    simp only [parse, hrootlen, hrt, if_true, hloop, hlenSrc, if_pos rfl]
  have htd : buildTypedict [(⟨28, 18, 12 + payload.length⟩ : JICPage)] = [(28, [0])] := by
    rfl
  refine ⟨⟨src, strict, [⟨28, 18, 12 + payload.length⟩], [(28, [0])]⟩, ?_, ?_⟩
  · simp only [openJIC, hparse, htd]
  · have hpagebytes : readAt src 18 (12 + payload.length)
        = S_pack [] 0 0x010800 ++ payload := by
      rw [readAt, hassoc, List.drop_left' hpre18]
      refine List.take_of_length_le ?_
      simp [S_pack, pack4s, u32le]
      omega
    have hrd : read_page_by_id ⟨src, strict, [⟨28, 18, 12 + payload.length⟩], [(28, [0])]⟩
        ((0 : Nat) : Int) = .ok (S_pack [] 0 0x010800 ++ payload) := by
      rw [read_page_by_id_natCast _ 0 (by simp)
            (by show 18 + (12 + payload.length) ≤ src.length
                rw [hlenSrc]
                omega)]
      show Except.ok (readAt src 18 (12 + payload.length)) = _
      rw [hpagebytes]
    have hrd0 : read_page_by_id ⟨src, strict, [⟨28, 18, 12 + payload.length⟩], [(28, [0])]⟩
        (0 : Int) = .ok (S_pack [] 0 0x010800 ++ payload) := hrd
    have hpp : read_pages_by_type
        ⟨src, strict, [⟨28, 18, 12 + payload.length⟩], [(28, [0])]⟩ 28 =
        .ok [S_pack [] 0 0x010800 ++ payload] := by
      simp [read_pages_by_type, typedictLookup, mapExcept, hrd0]
    have htagval : (S_pack [] 0 0x010800 ++ payload).take 12 = S_pack [] 0 0x010800 :=
      List.take_left' rfl
    have htag12 : ((S_pack [] 0 0x010800 ++ payload).take 12).length = 12 := by
      rw [htagval]
      rfl
    have hdropval : (S_pack [] 0 0x010800 ++ payload).drop 12 = payload :=
      List.drop_left' rfl
    have hcnt : (if strict = true
        then ([S_pack [] 0 0x010800 ++ payload] : List (List Nat)).length = 1
        else ([S_pack [] 0 0x010800 ++ payload] : List (List Nat)).length ≠ 0) := by
      cases strict <;> simp
    simp only [extract_firmware, hpp]
    dsimp only
    rw [if_pos hcnt]
    simp only [List.getD_cons_zero]
    rw [if_pos htag12]
    rw [if_neg (fun hcc => hcc.2 (by rw [htagval]; rfl))]
    rw [hdropval]

/-- Witness for C2: a two-byte payload extracted in strict mode. -/
theorem claim_c2_witness :
    ∃ r : JICReader,
      openJIC
        (S_pack [74, 73, 67] 0 0x08 ++ [28, 0] ++ u32le 14
          ++ S_pack [] 0 0x010800 ++ [171, 205]) true = .ok r ∧
      extract_firmware r = .ok [171, 205] :=
  claim_c2_roundtrip [171, 205] true (by decide) (by decide)

end AlteraFmtLib
